import Mathlib

/-!
Verification of the gobuffer repository: a growable, checkpointable FIFO
buffer stored as a list of fixed-size rows (chunks).  The definitions below
are a shallow embedding of the Go source (buffer.go and its Next/Consume
variant).  Go `int` is modelled as `Int`; Go integer division truncates
toward zero, so it is modelled with `Int.tdiv` / `Int.tmod`; the Go zero
value of a type parameter `T` is modelled as `default` of an `Inhabited`
instance; Go slice indexing that can panic is modelled totally (with
`List.set` no-ops and `Option.getD default` reads) together with a
"checked" variant (`CommitChecked`) that returns `none` exactly when the
Go code would panic on a slice bound.
-/

/-- Position in the two-dimensional row/column space of a buffer
(source: position struct). -/
structure position where
  rowSize : Int
  Row : Int
  Col : Int
deriving Repr, DecidableEq

/-- Absolute (one-dimensional) position (source: position.AbsolutePos). -/
def position.AbsolutePos (p : position) : Int :=
  p.Row * p.rowSize + p.Col

/-- Move the position the given number of steps, clamping at 0/0
(source: position.Move).  Go division truncates toward zero, hence tdiv/tmod;
the dividend is clamped non-negative before dividing. -/
def position.Move (p : position) (steps : Int) : position :=
  let absPos0 := p.AbsolutePos + steps
  let absPos := if absPos0 < 0 then 0 else absPos0
  { p with Row := absPos.tdiv p.rowSize, Col := absPos.tmod p.rowSize }

/-- Errors returned by Buffer.Rollback (source: IllegalStateError,
ZeroStateError). -/
inductive BufferError where
  | IllegalStateError
  | ZeroStateError
deriving Repr, DecidableEq

/-- A saved buffer state used for rollback (source: State struct). -/
structure State where
  read : position
  write : position
  init : Bool
deriving Repr, DecidableEq

/-- Whether a State is the zero (never captured) state (source: State.zero). -/
def State.zero (s : State) : Bool :=
  !s.init

/-- Build a captured state (source: newState). -/
def newState (read write : position) : State :=
  { read := read, write := write, init := true }

/-- The dynamic FIFO buffer (source: Buffer struct).  buffers is the list of
rows; row i of the list is logical row startRow + i. -/
structure Buffer (T : Type) where
  rowSize : Int
  startRow : Int
  buffers : List (List T)
  read : position
  write : position
deriving Repr, DecidableEq

/-- Two-dimensional read of the row list with Int indices; none when the
indices are out of range (where the Go code would panic). -/
def get2 {T : Type} (bs : List (List T)) (row col : Int) : Option T :=
  if 0 ≤ row ∧ 0 ≤ col then (bs.get? row.toNat).bind (fun c => c.get? col.toNat) else none

/-- Two-dimensional update of the row list with Int indices; out-of-range
updates (where the Go code would panic) leave the list unchanged; in the
states the proofs use the indices are always in range. -/
def set2 {T : Type} (bs : List (List T)) (row col : Int) (e : T) : List (List T) :=
  if 0 ≤ row ∧ 0 ≤ col then bs.set row.toNat ((bs.getD row.toNat []).set col.toNat e) else bs

/-- Buffer-relative row/column of a position (source: Buffer.bufferPos). -/
def Buffer.bufferPos {T : Type} (b : Buffer T) (pos : position) : Int × Int :=
  (pos.Row - b.startRow, pos.Col)

/-- Number of unread elements (source: Buffer.buffered, lower-case variant). -/
def Buffer.buffered {T : Type} (b : Buffer T) : Int :=
  b.write.AbsolutePos - b.read.AbsolutePos

/-- Number of unconsumed elements (source: Buffer.Buffered, exported
variant of the Next/Consume file; same body as buffered). -/
def Buffer.Buffered {T : Type} (b : Buffer T) : Int :=
  b.write.AbsolutePos - b.read.AbsolutePos

/-- Grow the buffer to hold at least size elements (source: Buffer.Grow).
The Go loop appends rows of zero values while the row count is at most
size/rowSize, i.e. it appends max(0, size/rowSize + 1 - len) rows. -/
def Buffer.Grow {T : Type} [Inhabited T] (b : Buffer T) (size : Int) : Buffer T :=
  let rows := size.tdiv b.rowSize
  { b with buffers :=
      b.buffers ++ (List.replicate (rows + 1 - (b.buffers.length : Int)).toNat
        (List.replicate b.rowSize.toNat default)) }

/-- Consuming read (source: Buffer.Read).  Returns the element, the ok flag
and the resulting buffer; when nothing is buffered it returns the zero
value of T (modelled as default) and false, leaving the buffer unchanged. -/
def Buffer.Read {T : Type} [Inhabited T] (b : Buffer T) : T × Bool × Buffer T :=
  if b.buffered ≤ 0 then (default, false, b)
  else
    ((get2 b.buffers (b.read.Row - b.startRow) b.read.Col).getD default, true,
      { b with read := b.read.Move 1 })

/-- Unread the last read element (source: Buffer.Unread). -/
def Buffer.Unread {T : Type} (b : Buffer T) : Buffer T :=
  { b with read := b.read.Move (-1) }

/-- Peek at the next element without consuming it (source: Buffer.Next of
the Next/Consume variant). -/
def Buffer.Next {T : Type} [Inhabited T] (b : Buffer T) : T × Bool :=
  if b.Buffered ≤ 0 then (default, false)
  else ((get2 b.buffers (b.read.Row - b.startRow) b.read.Col).getD default, true)

/-- Consume the current next element (source: Buffer.Consume of the
Next/Consume variant).  Note that the Go code advances unconditionally. -/
def Buffer.Consume {T : Type} (b : Buffer T) : Buffer T :=
  { b with read := b.read.Move 1 }

/-- Write an element, growing the buffer as needed (source: Buffer.Write). -/
def Buffer.Write {T : Type} [Inhabited T] (b : Buffer T) (element : T) : Buffer T :=
  let b1 := b.Grow (b.write.AbsolutePos + 1)
  { b1 with
    buffers := set2 b1.buffers (b1.write.Row - b1.startRow) b1.write.Col element,
    write := b1.write.Move 1 }

/-- Roll the read position back to a previously captured state (source:
Buffer.Rollback).  The first component is the returned error (none on
success); the second is the resulting buffer, unchanged on error. -/
def Buffer.Rollback {T : Type} (b : Buffer T) (state : State) : Option BufferError × Buffer T :=
  if state.zero = true then (some BufferError.ZeroStateError, b)
  else if state.read.Row < b.startRow then (some BufferError.IllegalStateError, b)
  else (none, { b with read := state.read })

/-- Capture the current state (source: Buffer.State); the result type is
the State structure above, left to inference because the method shares the
structure's name. -/
def Buffer.State {T : Type} (b : Buffer T) :=
  newState b.read b.write

/-- Remove rows before the current read pointer (source: Buffer.Commit).
The Go code computes row := read.Row - startRow and then slices
buffers[row - startRow:], subtracting startRow a second time; a negative
or too-large slice bound panics in Go, modelled here by clamping (toNat
and drop) and checked separately by CommitChecked. -/
def Buffer.Commit {T : Type} (b : Buffer T) : Buffer T :=
  let row := b.read.Row - b.startRow
  { b with
    buffers := b.buffers.drop (row - b.startRow).toNat,
    startRow := b.startRow + row }

/-- Panic-aware variant of Commit: none exactly when the Go slice expression
buffers[row-startRow:] would panic (bound negative or above the length). -/
def Buffer.CommitChecked {T : Type} (b : Buffer T) : Option (Buffer T) :=
  let row := b.read.Row - b.startRow
  let low := row - b.startRow
  if 0 ≤ low ∧ low ≤ (b.buffers.length : Int) then
    some { b with buffers := b.buffers.drop low.toNat, startRow := b.startRow + row }
  else none

/-- Constructor of the error-returning variant (source: NewWithSize of
buffer.go).  none models the returned error for a non-positive row size.
A negative number of rows makes the Go make call panic, so callers below
always pass a non-negative count. -/
def NewWithSize (T : Type) [Inhabited T] (rowSize rows : Int) : Option (Buffer T) :=
  if rowSize ≤ 0 then none
  else some (Buffer.Grow
    { rowSize := rowSize, startRow := 0, buffers := [],
      read := { rowSize := rowSize, Row := 0, Col := 0 },
      write := { rowSize := rowSize, Row := 0, Col := 0 } }
    (rows * rowSize))

/-- Convenience constructor with the default sizes (source: New). -/
def New (T : Type) [Inhabited T] : Option (Buffer T) :=
  NewWithSize T 10 5

/-- A canonical position: non-negative row, column within the row. -/
def position.canon (p : position) : Prop :=
  0 ≤ p.Row ∧ 0 ≤ p.Col ∧ p.Col < p.rowSize

instance (p : position) : Decidable p.canon := by
  unfold position.canon; infer_instance

/-- Well-formedness of a buffer: positive row size, canonical positions
sharing the row size, read between the committed base and the write
position, the write row covered by the allocated rows, and every row of
the expected length. -/
def Buffer.WF {T : Type} (b : Buffer T) : Prop :=
  0 < b.rowSize ∧
  b.read.rowSize = b.rowSize ∧
  b.write.rowSize = b.rowSize ∧
  b.read.canon ∧
  b.write.canon ∧
  0 ≤ b.startRow ∧
  b.startRow ≤ b.read.Row ∧
  b.read.AbsolutePos ≤ b.write.AbsolutePos ∧
  b.write.Row - b.startRow < (b.buffers.length : Int) ∧
  ∀ i, i < b.buffers.length → (b.buffers.getD i []).length = b.rowSize.toNat

instance {T : Type} (b : Buffer T) : Decidable b.WF := by
  unfold Buffer.WF; infer_instance

/-- Element at absolute stream index i, through the row/column mapping. -/
def Buffer.logicalGet {T : Type} (b : Buffer T) (i : Int) : Option T :=
  get2 b.buffers (i / b.rowSize - b.startRow) (i % b.rowSize)

/-- The list l is stored at consecutive absolute indices starting at a. -/
def Buffer.hasSegAt {T : Type} (b : Buffer T) (a : Int) (l : List T) : Prop :=
  ∀ k : Nat, k < l.length → b.logicalGet (a + (k : Int)) = l[k]?

instance {T : Type} [DecidableEq T] (b : Buffer T) (a : Int) (l : List T) :
    Decidable (b.hasSegAt a l) := by
  unfold Buffer.hasSegAt; infer_instance

/-- Representation invariant tying a buffer to its logical contents: past
is the list of elements already passed by the read position (back to some
anchor), q the list of buffered (unread) elements. -/
def Buffer.Layout {T : Type} (b : Buffer T) (past q : List T) : Prop :=
  b.WF ∧
  b.write.AbsolutePos = b.read.AbsolutePos + q.length ∧
  b.hasSegAt (b.read.AbsolutePos - past.length) (past ++ q)

instance {T : Type} [DecidableEq T] (b : Buffer T) (past q : List T) :
    Decidable (b.Layout past q) := by
  unfold Buffer.Layout; infer_instance

/-- Client-visible operations used for interleaving schedules: a write of
an element or a consuming read. -/
inductive BufOp (T : Type) where
  | write (e : T)
  | read
deriving Repr, DecidableEq

/-- Run a list of operations, collecting each read's element/flag pair in
order. -/
def runOps {T : Type} [Inhabited T] (b : Buffer T) : List (BufOp T) → Buffer T × List (T × Bool)
  | [] => (b, [])
  | BufOp.write e :: t => runOps (b.Write e) t
  | BufOp.read :: t =>
      let r := b.Read
      let rest := runOps r.2.2 t
      (rest.1, (r.1, r.2.1) :: rest.2)

/-- A schedule is valid for a queue when every read happens while at least
one element is buffered. -/
def okSched {T : Type} (q : List T) : List (BufOp T) → Prop
  | [] => True
  | BufOp.write e :: t => okSched (q ++ [e]) t
  | BufOp.read :: t => q ≠ [] ∧ okSched q.tail t

/-- The queue left after running a schedule against a starting queue. -/
def queueAfter {T : Type} (q : List T) : List (BufOp T) → List T
  | [] => q
  | BufOp.write e :: t => queueAfter (q ++ [e]) t
  | BufOp.read :: t => queueAfter q.tail t

/-- The elements written by a schedule, in order. -/
def writesOf {T : Type} : List (BufOp T) → List T
  | [] => []
  | BufOp.write e :: t => e :: writesOf t
  | BufOp.read :: t => writesOf t

/-- The number of reads in a schedule. -/
def numReads {T : Type} : List (BufOp T) → Nat
  | [] => 0
  | BufOp.write _ :: t => numReads t
  | BufOp.read :: t => numReads t + 1

/-- States reachable from a validly constructed buffer by the buffer
operations, with advance/consume performed only when an element is
buffered and unread kept within the committed region, as the source
documentation prescribes; rollback arguments carry the properties every
state actually captured from a reachable buffer has. -/
inductive Reach {T : Type} [Inhabited T] : Buffer T → Prop where
  | new (rowSize rows : Int) (b : Buffer T) (hrows : 0 ≤ rows)
      (h : NewWithSize T rowSize rows = some b) : Reach b
  | write (b : Buffer T) (e : T) (h : Reach b) : Reach (b.Write e)
  | read (b : Buffer T) (h : Reach b) : Reach (b.Read).2.2
  | consume (b : Buffer T) (h : Reach b) (hg : 0 < b.buffered) : Reach b.Consume
  | unread (b : Buffer T) (h : Reach b)
      (hg : b.startRow * b.rowSize < b.read.AbsolutePos) : Reach b.Unread
  | commit (b : Buffer T) (h : Reach b) : Reach b.Commit
  | grow (b : Buffer T) (h : Reach b) (n : Int) : Reach (b.Grow n)
  | rollback (b : Buffer T) (s : State) (h : Reach b)
      (hs1 : s.init = true) (hs2 : s.read.rowSize = b.rowSize)
      (hs3 : s.read.canon) (hs4 : s.read.AbsolutePos ≤ b.write.AbsolutePos) :
      Reach (b.Rollback s).2

/-- Fallback buffer used only to strip the Option of the constructor on
concrete inputs where construction is known to succeed. -/
def bufD : Buffer Nat :=
  { rowSize := 1, startRow := 0, buffers := [],
    read := { rowSize := 1, Row := 0, Col := 0 },
    write := { rowSize := 1, Row := 0, Col := 0 } }

/-- Concrete buffer with row size 1 and one requested row. -/
def b1x : Buffer Nat := (NewWithSize Nat 1 1).getD bufD

/-- Concrete buffer with row size 5 and one requested row. -/
def b5x : Buffer Nat := (NewWithSize Nat 5 1).getD bufD

/-- Concrete buffer with row size 2 and one requested row. -/
def b2x : Buffer Nat := (NewWithSize Nat 2 1).getD bufD

/-- The Go zero value of the State structure (never captured). -/
def zeroStateVal : State :=
  { read := { rowSize := 0, Row := 0, Col := 0 },
    write := { rowSize := 0, Row := 0, Col := 0 }, init := false }

/-- Reachable state for the C2 counterexample: two writes, one read, one
commit (base row becomes 1), then an unread that moves the read position
below the committed base. -/
def c2cexBuf : Buffer Nat := ((((b1x.Write 10).Write 20).Read).2.2.Commit).Unread

/-- Reachable state for the C4 failing input: two writes then one read,
so that the first commit discards a full row. -/
def c4base : Buffer Nat := (((b1x.Write 10).Write 20).Read).2.2

/-- Reachable state for the C5 failing input: two writes then one
consume, using only operations named by the claim. -/
def c5base : Buffer Nat := ((b1x.Write 10).Write 20).Consume

theorem tdiv_mul_add_tmod (a b : Int) : a.tdiv b * b + a.tmod b = a := by
  rw [mul_comm]; exact Int.tdiv_add_tmod a b

theorem ite_neg_eq_max (a : Int) : (if a < 0 then 0 else a) = max 0 a := by
  split_ifs with h
  · exact (max_eq_left h.le).symm
  · exact (max_eq_right (not_lt.mp h)).symm

theorem position.Move_rowSize (p : position) (s : Int) : (p.Move s).rowSize = p.rowSize := rfl

theorem position.Move_Row (p : position) (s : Int) :
    (p.Move s).Row = (max 0 (p.AbsolutePos + s)).tdiv p.rowSize := by
  simp only [position.Move, ite_neg_eq_max]

theorem position.Move_Col (p : position) (s : Int) :
    (p.Move s).Col = (max 0 (p.AbsolutePos + s)).tmod p.rowSize := by
  simp only [position.Move, ite_neg_eq_max]

theorem position.Move_AbsolutePos (p : position) (s : Int) :
    (p.Move s).AbsolutePos = max 0 (p.AbsolutePos + s) := by
  show (p.Move s).Row * (p.Move s).rowSize + (p.Move s).Col = _
  rw [position.Move_rowSize, position.Move_Row, position.Move_Col, tdiv_mul_add_tmod]

theorem position.canon_abs_nonneg (p : position) (hr : 0 < p.rowSize) (hc : p.canon) :
    0 ≤ p.AbsolutePos :=
  add_nonneg (mul_nonneg hc.1 hr.le) hc.2.1

theorem position.Move_canon (p : position) (s : Int) (hr : 0 < p.rowSize) :
    (p.Move s).canon := by
  have hnn : (0:Int) ≤ max 0 (p.AbsolutePos + s) := le_max_left _ _
  refine ⟨?_, ?_, ?_⟩
  · rw [position.Move_Row, Int.tdiv_eq_ediv hnn hr.le]
    exact Int.ediv_nonneg hnn hr.le
  · rw [position.Move_Col, Int.tmod_eq_emod hnn hr.le]
    exact Int.emod_nonneg _ hr.ne'
  · rw [position.Move_Col, position.Move_rowSize, Int.tmod_eq_emod hnn hr.le]
    exact Int.emod_lt_of_pos _ hr

theorem position.canon_Row (p : position) (hr : 0 < p.rowSize) (hc : p.canon) :
    p.Row = p.AbsolutePos / p.rowSize := by
  have : p.AbsolutePos = p.Col + p.Row * p.rowSize := by
    unfold position.AbsolutePos; ring
  rw [this, Int.add_mul_ediv_right _ _ hr.ne', Int.ediv_eq_zero_of_lt hc.2.1 hc.2.2, zero_add]

theorem position.canon_Col (p : position) (hc : p.canon) :
    p.Col = p.AbsolutePos % p.rowSize := by
  have h1 : p.AbsolutePos = p.Col + p.Row * p.rowSize := by
    unfold position.AbsolutePos; ring
  rw [h1, Int.add_mul_emod_self, Int.emod_eq_of_lt hc.2.1 hc.2.2]

/-- C7: Position movement clamps at the origin: for every position with
positive chunk size, non-negative chunk index and offset in range, and any
step count, the moved position's absolute index is max(0, absolute+steps),
its row and column are re-derived from that value by (Go, truncating)
division and modulo, and no component is negative. -/
theorem C7_move_clamps_at_origin (p : position) (s : Int)
    (h1 : 0 < p.rowSize) (h2 : 0 ≤ p.Row) (h3 : 0 ≤ p.Col) (h4 : p.Col < p.rowSize) :
    (p.Move s).AbsolutePos = max 0 (p.AbsolutePos + s) ∧
    (p.Move s).rowSize = p.rowSize ∧
    (p.Move s).Row = (max 0 (p.AbsolutePos + s)).tdiv p.rowSize ∧
    (p.Move s).Col = (max 0 (p.AbsolutePos + s)).tmod p.rowSize ∧
    0 ≤ (p.Move s).Row ∧ 0 ≤ (p.Move s).Col := by
  have hc := position.Move_canon p s h1
  exact ⟨position.Move_AbsolutePos p s, rfl, position.Move_Row p s,
    position.Move_Col p s, hc.1, hc.2.1⟩

/-- Witness for C7 at a concrete position and a large negative step. -/
theorem C7_move_clamps_at_origin_witness :
    (({ rowSize := 10, Row := 2, Col := 3 } : position).Move (-100)).AbsolutePos
      = max 0 (({ rowSize := 10, Row := 2, Col := 3 } : position).AbsolutePos + (-100)) :=
  (C7_move_clamps_at_origin { rowSize := 10, Row := 2, Col := 3 } (-100)
    (by decide) (by decide) (by decide) (by decide)).1

/-- C6: Rollback returns ZeroState exactly on the never-captured (zero
init flag) checkpoint, IllegalState exactly on a real checkpoint whose
read row is below the base row, and succeeds otherwise; on both errors
the buffer is unchanged; states captured by the checkpoint operation are
never the zero state. -/
theorem C6_rollback_error_conditions {T : Type} (b : Buffer T) (s : State) :
    ((b.Rollback s).1 = some BufferError.ZeroStateError ↔ s.init = false) ∧
    ((b.Rollback s).1 = some BufferError.IllegalStateError ↔
      (s.init = true ∧ s.read.Row < b.startRow)) ∧
    ((b.Rollback s).1 = none ↔ (s.init = true ∧ b.startRow ≤ s.read.Row)) ∧
    ((b.Rollback s).1.isSome = true → (b.Rollback s).2 = b) ∧
    ((b.Rollback s).1 = none → (b.Rollback s).2.read = s.read ∧
      (b.Rollback s).2.write = b.write ∧ (b.Rollback s).2.buffers = b.buffers ∧
      (b.Rollback s).2.startRow = b.startRow) ∧
    (b.State).init = true ∧ zeroStateVal.init = false := by
  unfold Buffer.Rollback State.zero Buffer.State newState zeroStateVal
  cases hs : s.init <;> [skip; split_ifs with h] <;> simp_all

/-- Witness for C6: rolling back the zero state on a concrete buffer
fails and leaves the buffer unchanged. -/
theorem C6_rollback_error_conditions_witness :
    (b1x.Rollback zeroStateVal).2 = b1x ∧
    (b1x.Rollback zeroStateVal).1 = some BufferError.ZeroStateError :=
  ⟨(C6_rollback_error_conditions b1x zeroStateVal).2.2.2.1 (by decide),
   (C6_rollback_error_conditions b1x zeroStateVal).1.mpr (by decide)⟩

/-- C8: The consuming read returns exactly what peek returns; when an
element is present it leaves the buffer as peek followed by consume
would, and when none is present it leaves the buffer unchanged (peek
itself returns no buffer, hence never mutates). -/
theorem C8_read_next_consume_equiv {T : Type} [Inhabited T] (b : Buffer T) :
    (b.Read).1 = (b.Next).1 ∧
    (b.Read).2.1 = (b.Next).2 ∧
    ((b.Next).2 = true → (b.Read).2.2 = b.Consume) ∧
    ((b.Next).2 = false → (b.Read).2.2 = b) := by
  unfold Buffer.Read Buffer.Next Buffer.Consume Buffer.buffered Buffer.Buffered
  split_ifs <;> simp

/-- Witness for C8 on a concrete empty buffer (flag false, buffer kept)
and after unfolding the flag on a written buffer. -/
theorem C8_read_next_consume_equiv_witness :
    ((b5x.Write 3).Read).2.2 = (b5x.Write 3).Consume ∧ (b5x.Read).2.2 = b5x :=
  ⟨(C8_read_next_consume_equiv (b5x.Write 3)).2.2.1 (by decide),
   (C8_read_next_consume_equiv b5x).2.2.2 (by decide)⟩

/-- C9: When peek or the consuming read reports no element, the element
returned with it is the zero value of T (modelled as default). -/
theorem C9_zero_value_when_empty {T : Type} [Inhabited T] (b : Buffer T) :
    ((b.Next).2 = false → (b.Next).1 = default) ∧
    ((b.Read).2.1 = false → (b.Read).1 = default) := by
  unfold Buffer.Read Buffer.Next Buffer.buffered Buffer.Buffered
  split_ifs <;> simp

/-- Witness for C9 on a concrete drained buffer. -/
theorem C9_zero_value_when_empty_witness :
    (((b5x.Write 3).Read).2.2.Next).1 = default ∧
    (((b5x.Write 3).Read).2.2.Read).1 = default :=
  ⟨(C9_zero_value_when_empty ((b5x.Write 3).Read).2.2).1 (by decide),
   (C9_zero_value_when_empty ((b5x.Write 3).Read).2.2).2 (by decide)⟩

/-- C10: NewWithSize with a positive row size and zero rows succeeds (no
error) and yields a buffer with exactly one allocated row and both
positions at absolute index 0: the row count is silently clamped to a
minimum of one row, because Grow allocates rows up to index size/rowSize
inclusive. -/
theorem C10_zero_rows_clamped (T : Type) [Inhabited T] (rowSize : Int) (h : 0 < rowSize) :
    ∃ b : Buffer T, NewWithSize T rowSize 0 = some b ∧
      b.buffers.length = 1 ∧ b.read.AbsolutePos = 0 ∧ b.write.AbsolutePos = 0 := by
  have hne : ¬ rowSize ≤ 0 := not_le.mpr h
  refine ⟨_, by rw [NewWithSize, if_neg hne], ?_, ?_, ?_⟩
  · simp [Buffer.Grow, Int.zero_tdiv]
  · simp [position.AbsolutePos, Buffer.Grow]
  · simp [position.AbsolutePos, Buffer.Grow]

/-- Witness for C10 at row size 7. -/
theorem C10_zero_rows_clamped_witness :
    ∃ b : Buffer Nat, NewWithSize Nat 7 0 = some b ∧
      b.buffers.length = 1 ∧ b.read.AbsolutePos = 0 ∧ b.write.AbsolutePos = 0 :=
  C10_zero_rows_clamped Nat 7 (by decide)

/-- C3 counterexample: consume on a freshly constructed buffer (no unread
element buffered) makes buffered negative, and the write position falls
strictly behind the read position, refuting the claim for sequences that
advance with no element buffered. -/
theorem C3_cex_consume_negative :
    (b5x.Consume).buffered = -1 ∧ ¬ (0 ≤ (b5x.Consume).buffered) ∧
    (b5x.Consume).write.AbsolutePos < (b5x.Consume).read.AbsolutePos := by decide

/-- C2 counterexample: in the reachable state reached by write, write,
read, commit, unread (read row now below the base row), capturing a
checkpoint and immediately rolling back fails with IllegalState instead
of succeeding. -/
theorem C2_cex_rollback_fails :
    c2cexBuf.Rollback c2cexBuf.State = (some BufferError.IllegalStateError, c2cexBuf) := by
  decide

/-- C4: evaluation at the failing input: after write, write, read, the
first commit succeeds (checked and total models agree), but an immediate
second commit with no intervening reads hits a negative slice bound
(buffers[row-startRow:] subtracts startRow twice) and panics in Go,
modelled by CommitChecked returning none. -/
theorem C4_second_commit_panics :
    c4base.CommitChecked = some c4base.Commit ∧ (c4base.Commit).CommitChecked = none := by
  decide

/-- C5: evaluation at the failing input: the sequence write, write,
consume, commit, commit uses only operations the claim lists, yet the
second commit panics in Go (negative slice bound), modelled by
CommitChecked returning none. -/
theorem C5_commit_sequence_panics :
    c5base.CommitChecked = some c5base.Commit ∧ (c5base.Commit).CommitChecked = none := by
  decide

theorem get2_some_nonneg {T : Type} {bs : List (List T)} {row col : Int} {x : T}
    (h : get2 bs row col = some x) : 0 ≤ row ∧ 0 ≤ col := by
  by_contra hc
  rw [get2, if_neg] at h
  · exact Option.noConfusion h
  · exact fun hp => hc hp

theorem get2_pos {T : Type} (bs : List (List T)) {row col : Int}
    (hrow : 0 ≤ row) (hcol : 0 ≤ col) :
    get2 bs row col = (bs.get? row.toNat).bind (fun c => c.get? col.toNat) := by
  rw [get2, if_pos ⟨hrow, hcol⟩]

theorem set2_pos {T : Type} (bs : List (List T)) {row col : Int} (e : T)
    (hrow : 0 ≤ row) (hcol : 0 ≤ col) :
    set2 bs row col e = bs.set row.toNat ((bs.getD row.toNat []).set col.toNat e) := by
  rw [set2, if_pos ⟨hrow, hcol⟩]

theorem set2_length {T : Type} (bs : List (List T)) (row col : Int) (e : T) :
    (set2 bs row col e).length = bs.length := by
  rw [set2]
  split_ifs <;> simp

theorem get2_append_of_some {T : Type} {bs l2 : List (List T)} {row col : Int} {x : T}
    (h : get2 bs row col = some x) : get2 (bs ++ l2) row col = some x := by
  obtain ⟨hrow, hcol⟩ := get2_some_nonneg h
  rw [get2_pos bs hrow hcol] at h
  rw [get2_pos (bs ++ l2) hrow hcol]
  cases hb : bs.get? row.toNat with
  | none => rw [hb] at h; exact absurd h (by simp)
  | some c =>
      have hlt : row.toNat < bs.length := by
        rw [List.get?_eq_getElem?] at hb
        exact (List.getElem?_eq_some_iff.mp hb).1
      rw [hb] at h
      rw [List.get?_eq_getElem?, List.getElem?_append_left hlt, ← List.get?_eq_getElem?, hb]
      exact h

theorem get2_set2_ne {T : Type} {bs : List (List T)} {R C row col : Int} {e : T}
    (hrow : 0 ≤ row) (hcol : 0 ≤ col)
    (hne : row ≠ R ∨ col ≠ C) :
    get2 (set2 bs R C e) row col = get2 bs row col := by
  by_cases hRC : 0 ≤ R ∧ 0 ≤ C
  · rw [set2_pos bs e hRC.1 hRC.2, get2_pos _ hrow hcol, get2_pos bs hrow hcol]
    simp only [List.get?_eq_getElem?]
    by_cases hlen : bs.length ≤ R.toNat
    · rw [List.set_eq_of_length_le hlen]
    · push_neg at hlen
      by_cases hrR : row.toNat = R.toNat
      · have hcne : C.toNat ≠ col.toNat := by
          rcases hne with hne | hne
          · omega
          · omega
        rw [hrR, List.getElem?_set_self hlen, List.getElem?_eq_getElem hlen]
        simp only [Option.some_bind]
        rw [List.getD_eq_getElem?_getD, List.getElem?_eq_getElem hlen]
        simp only [Option.getD_some, List.get?_eq_getElem?]
        rw [List.getElem?_set_ne hcne]
      · have hne2 : R.toNat ≠ row.toNat := fun hh => hrR hh.symm
        rw [List.getElem?_set_ne hne2]
  · rw [set2, if_neg hRC]

theorem get2_set2_self {T : Type} {bs : List (List T)} {R C : Int} {e : T}
    (hR : 0 ≤ R) (hC : 0 ≤ C) (hlt : R.toNat < bs.length)
    (hclt : C.toNat < (bs.getD R.toNat []).length) :
    get2 (set2 bs R C e) R C = some e := by
  rw [set2_pos bs e hR hC, get2_pos _ hR hC]
  simp only [List.get?_eq_getElem?]
  rw [List.getElem?_set_self hlt]
  simp only [Option.some_bind]
  rw [List.getElem?_set_self hclt]

theorem grow_read {T : Type} [Inhabited T] (b : Buffer T) (n : Int) :
    (b.Grow n).read = b.read := rfl

theorem grow_write {T : Type} [Inhabited T] (b : Buffer T) (n : Int) :
    (b.Grow n).write = b.write := rfl

theorem grow_startRow {T : Type} [Inhabited T] (b : Buffer T) (n : Int) :
    (b.Grow n).startRow = b.startRow := rfl

theorem grow_rowSize {T : Type} [Inhabited T] (b : Buffer T) (n : Int) :
    (b.Grow n).rowSize = b.rowSize := rfl

theorem grow_buffers {T : Type} [Inhabited T] (b : Buffer T) (n : Int) :
    (b.Grow n).buffers = b.buffers ++
      (List.replicate (n.tdiv b.rowSize + 1 - (b.buffers.length : Int)).toNat
        (List.replicate b.rowSize.toNat default)) := rfl

theorem grow_length {T : Type} [Inhabited T] (b : Buffer T) (n : Int) :
    (b.Grow n).buffers.length =
      b.buffers.length + (n.tdiv b.rowSize + 1 - (b.buffers.length : Int)).toNat := by
  rw [grow_buffers]
  simp

theorem grow_length_ge {T : Type} [Inhabited T] (b : Buffer T) (n : Int) :
    n.tdiv b.rowSize + 1 ≤ ((b.Grow n).buffers.length : Int) := by
  rw [grow_length]
  omega

theorem grow_length_ge_old {T : Type} [Inhabited T] (b : Buffer T) (n : Int) :
    b.buffers.length ≤ (b.Grow n).buffers.length := by
  rw [grow_length]
  omega

theorem grow_getD_lt {T : Type} [Inhabited T] (b : Buffer T) (n : Int) {i : Nat}
    (h : i < b.buffers.length) :
    (b.Grow n).buffers.getD i [] = b.buffers.getD i [] := by
  rw [grow_buffers]
  simp only [List.getD_eq_getElem?_getD]
  rw [List.getElem?_append_left h]

theorem grow_getD_ge {T : Type} [Inhabited T] (b : Buffer T) (n : Int) {i : Nat}
    (h1 : b.buffers.length ≤ i) (h2 : i < (b.Grow n).buffers.length) :
    (b.Grow n).buffers.getD i [] = List.replicate b.rowSize.toNat default := by
  rw [grow_length] at h2
  rw [grow_buffers]
  simp only [List.getD_eq_getElem?_getD]
  rw [List.getElem?_append_right h1, List.getElem?_replicate]
  rw [if_pos (by omega)]
  simp

theorem logicalGet_grow {T : Type} [Inhabited T] (b : Buffer T) (n i : Int) {x : T}
    (h : b.logicalGet i = some x) : (b.Grow n).logicalGet i = some x := by
  unfold Buffer.logicalGet at h ⊢
  rw [grow_rowSize, grow_startRow, grow_buffers]
  exact get2_append_of_some h

theorem WF_rowSize_pos {T : Type} {b : Buffer T} (h : b.WF) : 0 < b.rowSize := h.1

theorem WF_read_rowSize {T : Type} {b : Buffer T} (h : b.WF) : b.read.rowSize = b.rowSize := h.2.1

theorem WF_write_rowSize {T : Type} {b : Buffer T} (h : b.WF) : b.write.rowSize = b.rowSize :=
  h.2.2.1

theorem WF_read_canon {T : Type} {b : Buffer T} (h : b.WF) : b.read.canon := h.2.2.2.1

theorem WF_write_canon {T : Type} {b : Buffer T} (h : b.WF) : b.write.canon := h.2.2.2.2.1

theorem WF_startRow_nonneg {T : Type} {b : Buffer T} (h : b.WF) : 0 ≤ b.startRow :=
  h.2.2.2.2.2.1

theorem WF_startRow_le_read {T : Type} {b : Buffer T} (h : b.WF) : b.startRow ≤ b.read.Row :=
  h.2.2.2.2.2.2.1

theorem WF_read_le_write {T : Type} {b : Buffer T} (h : b.WF) :
    b.read.AbsolutePos ≤ b.write.AbsolutePos := h.2.2.2.2.2.2.2.1

theorem WF_cov {T : Type} {b : Buffer T} (h : b.WF) :
    b.write.Row - b.startRow < (b.buffers.length : Int) := h.2.2.2.2.2.2.2.2.1

theorem WF_chunk_len {T : Type} {b : Buffer T} (h : b.WF) :
    ∀ i, i < b.buffers.length → (b.buffers.getD i []).length = b.rowSize.toNat :=
  h.2.2.2.2.2.2.2.2.2

theorem WF_read_rowSize_pos {T : Type} {b : Buffer T} (h : b.WF) : 0 < b.read.rowSize := by
  rw [WF_read_rowSize h]; exact WF_rowSize_pos h

theorem WF_write_rowSize_pos {T : Type} {b : Buffer T} (h : b.WF) : 0 < b.write.rowSize := by
  rw [WF_write_rowSize h]; exact WF_rowSize_pos h

theorem WF_read_abs_nonneg {T : Type} {b : Buffer T} (h : b.WF) : 0 ≤ b.read.AbsolutePos :=
  position.canon_abs_nonneg b.read (WF_read_rowSize_pos h) (WF_read_canon h)

theorem WF_write_abs_nonneg {T : Type} {b : Buffer T} (h : b.WF) : 0 ≤ b.write.AbsolutePos :=
  position.canon_abs_nonneg b.write (WF_write_rowSize_pos h) (WF_write_canon h)

theorem WF_read_Row {T : Type} {b : Buffer T} (h : b.WF) :
    b.read.Row = b.read.AbsolutePos / b.rowSize := by
  rw [← WF_read_rowSize h]
  exact position.canon_Row b.read (WF_read_rowSize_pos h) (WF_read_canon h)

theorem WF_write_Row {T : Type} {b : Buffer T} (h : b.WF) :
    b.write.Row = b.write.AbsolutePos / b.rowSize := by
  rw [← WF_write_rowSize h]
  exact position.canon_Row b.write (WF_write_rowSize_pos h) (WF_write_canon h)

theorem WF_read_Col {T : Type} {b : Buffer T} (h : b.WF) :
    b.read.Col = b.read.AbsolutePos % b.rowSize := by
  rw [← WF_read_rowSize h]
  exact position.canon_Col b.read (WF_read_canon h)

theorem WF_write_Col {T : Type} {b : Buffer T} (h : b.WF) :
    b.write.Col = b.write.AbsolutePos % b.rowSize := by
  rw [← WF_write_rowSize h]
  exact position.canon_Col b.write (WF_write_canon h)

theorem WF_read_Row_le_write_Row {T : Type} {b : Buffer T} (h : b.WF) :
    b.read.Row ≤ b.write.Row := by
  rw [WF_read_Row h, WF_write_Row h]
  exact Int.ediv_le_ediv (WF_rowSize_pos h) (WF_read_le_write h)

theorem abs_eq_of_divmod_eq (r : Int) {i a : Int} (hd : i / r = a / r) (hm : i % r = a % r) :
    i = a := by
  have h1 := Int.ediv_add_emod i r
  have h2 := Int.ediv_add_emod a r
  rw [hd, hm] at h1
  exact h1.symm.trans h2

theorem WF_read_get_eq {T : Type} {b : Buffer T} (h : b.WF) :
    get2 b.buffers (b.read.Row - b.startRow) b.read.Col = b.logicalGet b.read.AbsolutePos := by
  unfold Buffer.logicalGet
  rw [← WF_read_Row h, ← WF_read_Col h]

theorem write_read {T : Type} [Inhabited T] (b : Buffer T) (e : T) :
    (b.Write e).read = b.read := rfl

theorem write_startRow {T : Type} [Inhabited T] (b : Buffer T) (e : T) :
    (b.Write e).startRow = b.startRow := rfl

theorem write_rowSize {T : Type} [Inhabited T] (b : Buffer T) (e : T) :
    (b.Write e).rowSize = b.rowSize := rfl

theorem write_write {T : Type} [Inhabited T] (b : Buffer T) (e : T) :
    (b.Write e).write = b.write.Move 1 := rfl

theorem write_buffers {T : Type} [Inhabited T] (b : Buffer T) (e : T) :
    (b.Write e).buffers =
      set2 (b.Grow (b.write.AbsolutePos + 1)).buffers
        (b.write.Row - b.startRow) b.write.Col e := rfl

theorem write_write_abs {T : Type} [Inhabited T] {b : Buffer T} (h : b.WF) (e : T) :
    (b.Write e).write.AbsolutePos = b.write.AbsolutePos + 1 := by
  have h0 := WF_write_abs_nonneg h
  rw [write_write, position.Move_AbsolutePos, max_eq_right (by omega)]

theorem write_length {T : Type} [Inhabited T] (b : Buffer T) (e : T) :
    (b.Write e).buffers.length =
      b.buffers.length +
        ((b.write.AbsolutePos + 1).tdiv b.rowSize + 1 - (b.buffers.length : Int)).toNat := by
  rw [write_buffers, set2_length, grow_length]

theorem write_row_nonneg {T : Type} {b : Buffer T} (h : b.WF) :
    0 ≤ b.write.Row - b.startRow := by
  have h1 := WF_startRow_le_read h
  have h2 := WF_read_Row_le_write_Row h
  omega

theorem WF_write {T : Type} [Inhabited T] {b : Buffer T} (h : b.WF) (e : T) :
    (b.Write e).WF := by
  have hr := WF_rowSize_pos h
  have ha0 := WF_write_abs_nonneg h
  have hd0 := WF_read_abs_nonneg h
  refine ⟨?_, ?_, ?_, ?_, ?_, ?_, ?_, ?_, ?_, ?_⟩
  · rw [write_rowSize]; exact hr
  · rw [write_read, write_rowSize]; exact WF_read_rowSize h
  · rw [write_write, write_rowSize, position.Move_rowSize]; exact WF_write_rowSize h
  · rw [write_read]; exact WF_read_canon h
  · rw [write_write]
    exact position.Move_canon b.write 1 (WF_write_rowSize_pos h)
  · rw [write_startRow]; exact WF_startRow_nonneg h
  · rw [write_startRow, write_read]; exact WF_startRow_le_read h
  · rw [write_read, write_write_abs h e]
    have := WF_read_le_write h
    omega
  · rw [write_startRow, write_length, write_write, position.Move_Row,
      max_eq_right (by omega : (0:Int) ≤ b.write.AbsolutePos + 1), WF_write_rowSize h]
    have hs0 := WF_startRow_nonneg h
    generalize (b.write.AbsolutePos + 1).tdiv b.rowSize = qv
    omega
  · intro i hi
    rw [write_length] at hi
    rw [write_buffers, write_rowSize]
    have hR : 0 ≤ b.write.Row - b.startRow := write_row_nonneg h
    have hC : 0 ≤ b.write.Col := (WF_write_canon h).2.1
    rw [set2_pos _ e hR hC]
    set g := b.Grow (b.write.AbsolutePos + 1) with hg
    have hglen : ∀ j, j < g.buffers.length → (g.buffers.getD j []).length = b.rowSize.toNat := by
      intro j hj
      by_cases hjb : j < b.buffers.length
      · rw [hg, grow_getD_lt b _ hjb]
        exact WF_chunk_len h j hjb
      · push_neg at hjb
        rw [hg, grow_getD_ge b _ hjb hj]
        simp
    have hglen2 : g.buffers.length =
        b.buffers.length +
          ((b.write.AbsolutePos + 1).tdiv b.rowSize + 1 - (b.buffers.length : Int)).toNat := by
      rw [hg, grow_length]
    have hig : i < g.buffers.length := by omega
    by_cases hiR : i = (b.write.Row - b.startRow).toNat
    · subst hiR
      rw [List.getD_eq_getElem?_getD, List.getElem?_set_self hig]
      simp only [Option.getD_some, List.length_set]
      exact hglen _ hig
    · rw [List.getD_eq_getElem?_getD, List.getElem?_set_ne (fun hh => hiR hh.symm),
        ← List.getD_eq_getElem?_getD]
      exact hglen i hig

theorem grow_chunk_len {T : Type} [Inhabited T] {b : Buffer T} (h : b.WF) (n : Int) :
    ∀ j, j < (b.Grow n).buffers.length →
      ((b.Grow n).buffers.getD j []).length = b.rowSize.toNat := by
  intro j hj
  by_cases hjb : j < b.buffers.length
  · rw [grow_getD_lt b _ hjb]
    exact WF_chunk_len h j hjb
  · push_neg at hjb
    rw [grow_getD_ge b _ hjb hj]
    simp

theorem logicalGet_write_ne {T : Type} [Inhabited T] {b : Buffer T} (h : b.WF) (e : T)
    {i : Int} {x : T} (hi : b.logicalGet i = some x) (hne : i ≠ b.write.AbsolutePos) :
    (b.Write e).logicalGet i = some x := by
  have hg : (b.Grow (b.write.AbsolutePos + 1)).logicalGet i = some x :=
    logicalGet_grow b _ i hi
  unfold Buffer.logicalGet at hg ⊢
  rw [write_rowSize, write_startRow, write_buffers]
  rw [grow_rowSize, grow_startRow] at hg
  obtain ⟨hrow, hcol⟩ := get2_some_nonneg hg
  have hor : i / b.rowSize - b.startRow ≠ b.write.Row - b.startRow ∨
      i % b.rowSize ≠ b.write.Col := by
    by_contra hc
    push_neg at hc
    apply hne
    refine abs_eq_of_divmod_eq b.rowSize ?_ ?_
    · have h1 := hc.1
      rw [WF_write_Row h] at h1
      omega
    · rw [hc.2, WF_write_Col h]
  rw [get2_set2_ne hrow hcol hor]
  exact hg

theorem logicalGet_write_self {T : Type} [Inhabited T] {b : Buffer T} (h : b.WF) (e : T) :
    (b.Write e).logicalGet b.write.AbsolutePos = some e := by
  have hr := WF_rowSize_pos h
  have ha0 := WF_write_abs_nonneg h
  unfold Buffer.logicalGet
  rw [write_rowSize, write_startRow, write_buffers, ← WF_write_Row h, ← WF_write_Col h]
  have hR : 0 ≤ b.write.Row - b.startRow := write_row_nonneg h
  have hC : 0 ≤ b.write.Col := (WF_write_canon h).2.1
  have htd : (b.write.AbsolutePos + 1).tdiv b.rowSize = (b.write.AbsolutePos + 1) / b.rowSize :=
    Int.tdiv_eq_ediv (by omega) hr.le
  have hrowle : b.write.Row ≤ (b.write.AbsolutePos + 1) / b.rowSize := by
    rw [WF_write_Row h]
    exact Int.ediv_le_ediv hr (by omega)
  have hlenInt : b.write.Row - b.startRow < ((b.Grow (b.write.AbsolutePos + 1)).buffers.length : Int) := by
    have h1 := grow_length_ge b (b.write.AbsolutePos + 1)
    rw [htd] at h1
    have hs0 := WF_startRow_nonneg h
    omega
  have hlt : (b.write.Row - b.startRow).toNat < (b.Grow (b.write.AbsolutePos + 1)).buffers.length := by
    omega
  have hclt : b.write.Col.toNat <
      ((b.Grow (b.write.AbsolutePos + 1)).buffers.getD (b.write.Row - b.startRow).toNat []).length := by
    rw [grow_chunk_len h _ _ hlt]
    have hcw : b.write.Col < b.rowSize := by
      have := (WF_write_canon h).2.2
      rw [WF_write_rowSize h] at this
      exact this
    omega
  exact get2_set2_self hR hC hlt hclt

theorem read_of_nonpos {T : Type} [Inhabited T] {b : Buffer T} (h : b.buffered ≤ 0) :
    b.Read = (default, false, b) := by
  unfold Buffer.Read
  rw [if_pos h]

theorem read_of_pos {T : Type} [Inhabited T] {b : Buffer T} (h : 0 < b.buffered) :
    b.Read = ((get2 b.buffers (b.read.Row - b.startRow) b.read.Col).getD default, true,
      { b with read := b.read.Move 1 }) := by
  unfold Buffer.Read
  rw [if_neg (by omega)]

theorem move_one_abs {p : position} (hr : 0 < p.rowSize) (hc : p.canon) :
    (p.Move 1).AbsolutePos = p.AbsolutePos + 1 := by
  have h0 := position.canon_abs_nonneg p hr hc
  rw [position.Move_AbsolutePos, max_eq_right (by omega)]

theorem move_one_Row_mono {p : position} (hr : 0 < p.rowSize) (hc : p.canon) :
    p.Row ≤ (p.Move 1).Row := by
  have h0 := position.canon_abs_nonneg p hr hc
  rw [position.Move_Row, max_eq_right (by omega : (0:Int) ≤ p.AbsolutePos + 1),
    Int.tdiv_eq_ediv (by omega) hr.le, position.canon_Row p hr hc]
  exact Int.ediv_le_ediv hr (by omega)

theorem WF_advance {T : Type} {b : Buffer T} (h : b.WF)
    (hg : b.read.AbsolutePos < b.write.AbsolutePos) :
    ({ b with read := b.read.Move 1 } : Buffer T).WF := by
  have hr := WF_rowSize_pos h
  have hrp := WF_read_rowSize_pos h
  have hrc := WF_read_canon h
  unfold Buffer.WF
  dsimp only
  refine ⟨hr, ?_, WF_write_rowSize h, position.Move_canon b.read 1 hrp, WF_write_canon h,
    WF_startRow_nonneg h, le_trans (WF_startRow_le_read h) (move_one_Row_mono hrp hrc),
    ?_, WF_cov h, WF_chunk_len h⟩
  · rw [position.Move_rowSize]; exact WF_read_rowSize h
  · rw [move_one_abs hrp hrc]; omega

theorem WF_read {T : Type} [Inhabited T] {b : Buffer T} (h : b.WF) : ((b.Read).2.2).WF := by
  by_cases hb : b.buffered ≤ 0
  · rw [read_of_nonpos hb]; exact h
  · push_neg at hb
    rw [read_of_pos hb]
    refine WF_advance h ?_
    unfold Buffer.buffered at hb
    omega

theorem WF_consume {T : Type} {b : Buffer T} (h : b.WF) (hg : 0 < b.buffered) :
    (b.Consume).WF := by
  unfold Buffer.Consume
  refine WF_advance h ?_
  unfold Buffer.buffered at hg
  omega

theorem WF_unread {T : Type} {b : Buffer T} (h : b.WF)
    (hg : b.startRow * b.rowSize < b.read.AbsolutePos) : (b.Unread).WF := by
  have hr := WF_rowSize_pos h
  have hrp := WF_read_rowSize_pos h
  have hrc := WF_read_canon h
  have hs0 := WF_startRow_nonneg h
  have hsr0 : 0 ≤ b.startRow * b.rowSize := mul_nonneg hs0 hr.le
  have habs : (b.read.Move (-1)).AbsolutePos = b.read.AbsolutePos - 1 := by
    rw [position.Move_AbsolutePos, max_eq_right (by omega)]
    omega
  unfold Buffer.Unread Buffer.WF
  dsimp only
  refine ⟨hr, ?_, WF_write_rowSize h, position.Move_canon b.read (-1) hrp, WF_write_canon h,
    hs0, ?_, ?_, WF_cov h, WF_chunk_len h⟩
  · rw [position.Move_rowSize]; exact WF_read_rowSize h
  · rw [position.Move_Row, max_eq_right (by omega : (0:Int) ≤ b.read.AbsolutePos + (-1)),
      Int.tdiv_eq_ediv (by omega) (by rw [WF_read_rowSize h]; exact hr.le)]
    rw [WF_read_rowSize h]
    have h1 : b.startRow * b.rowSize ≤ b.read.AbsolutePos + (-1) := by omega
    have h2 := Int.ediv_le_ediv hr h1
    rw [Int.mul_ediv_cancel _ hr.ne'] at h2
    exact h2
  · rw [habs]
    have := WF_read_le_write h
    omega

theorem commit_read {T : Type} (b : Buffer T) : (b.Commit).read = b.read := rfl

theorem commit_write {T : Type} (b : Buffer T) : (b.Commit).write = b.write := rfl

theorem commit_rowSize {T : Type} (b : Buffer T) : (b.Commit).rowSize = b.rowSize := rfl

theorem commit_startRow {T : Type} (b : Buffer T) :
    (b.Commit).startRow = b.startRow + (b.read.Row - b.startRow) := rfl

theorem commit_buffers {T : Type} (b : Buffer T) :
    (b.Commit).buffers = b.buffers.drop ((b.read.Row - b.startRow) - b.startRow).toNat := rfl

theorem WF_commit {T : Type} {b : Buffer T} (h : b.WF) : (b.Commit).WF := by
  have hr := WF_rowSize_pos h
  have hs0 := WF_startRow_nonneg h
  have hsr := WF_startRow_le_read h
  have hrw := WF_read_Row_le_write_Row h
  have hcov := WF_cov h
  unfold Buffer.Commit Buffer.WF
  dsimp only
  refine ⟨hr, WF_read_rowSize h, WF_write_rowSize h, WF_read_canon h, WF_write_canon h,
    ?_, ?_, WF_read_le_write h, ?_, ?_⟩
  · omega
  · omega
  · rw [List.length_drop]
    omega
  · intro i hi
    rw [List.length_drop] at hi
    rw [List.getD_eq_getElem?_getD, List.getElem?_drop, ← List.getD_eq_getElem?_getD]
    exact WF_chunk_len h _ (by omega)

theorem WF_grow {T : Type} [Inhabited T] {b : Buffer T} (h : b.WF) (n : Int) :
    (b.Grow n).WF := by
  have hlen := grow_length_ge_old b n
  have hcl := grow_chunk_len h n
  have hcov := WF_cov h
  unfold Buffer.WF
  rw [grow_rowSize, grow_read, grow_write, grow_startRow]
  refine ⟨WF_rowSize_pos h, WF_read_rowSize h, WF_write_rowSize h, WF_read_canon h,
    WF_write_canon h, WF_startRow_nonneg h, WF_startRow_le_read h, WF_read_le_write h,
    ?_, hcl⟩
  omega

theorem WF_rollback {T : Type} {b : Buffer T} {s : State} (h : b.WF)
    (hs2 : s.read.rowSize = b.rowSize) (hs3 : s.read.canon)
    (hs4 : s.read.AbsolutePos ≤ b.write.AbsolutePos) :
    ((b.Rollback s).2).WF := by
  unfold Buffer.Rollback
  split_ifs with h1 h2
  · exact h
  · exact h
  · push_neg at h2
    unfold Buffer.WF
    dsimp only
    exact ⟨WF_rowSize_pos h, hs2, WF_write_rowSize h, hs3, WF_write_canon h,
      WF_startRow_nonneg h, h2, hs4, WF_cov h, WF_chunk_len h⟩

theorem WF_new {T : Type} [Inhabited T] {rowSize rows : Int} {b : Buffer T}
    (hrows : 0 ≤ rows) (h : NewWithSize T rowSize rows = some b) : b.WF := by
  unfold NewWithSize at h
  by_cases hle : rowSize ≤ 0
  · rw [if_pos hle] at h
    exact Option.noConfusion h
  · rw [if_neg hle] at h
    push_neg at hle
    obtain rfl := (Option.some.injEq _ _).mp h
    have hcan : (({ rowSize := rowSize, Row := 0, Col := 0 } : position)).canon :=
      ⟨le_refl 0, le_refl 0, hle⟩
    have habs : (({ rowSize := rowSize, Row := 0, Col := 0 } : position)).AbsolutePos = 0 := by
      unfold position.AbsolutePos; ring
    refine ⟨?_, ?_, ?_, ?_, ?_, ?_, ?_, ?_, ?_, ?_⟩
    · exact hle
    · exact rfl
    · exact rfl
    · exact hcan
    · exact hcan
    · exact le_refl 0
    · exact le_refl 0
    · rw [grow_read, grow_write, habs]
    · rw [grow_startRow, grow_write, grow_length]
      show (0:Int) - 0 < _
      have : (rows * rowSize).tdiv rowSize = rows := Int.mul_tdiv_cancel rows hle.ne'
      simp only [this]
      simp only [List.length_nil]
      omega
    · intro i hi
      rw [grow_rowSize, grow_getD_ge _ _ (by simp) hi]
      simp

theorem Reach_WF {T : Type} [Inhabited T] {b : Buffer T} (h : Reach b) : b.WF := by
  induction h with
  | new rowSize rows b hrows hb => exact WF_new hrows hb
  | write b e h ih => exact WF_write ih e
  | read b h ih => exact WF_read ih
  | consume b h hg ih => exact WF_consume ih hg
  | unread b h hg ih => exact WF_unread ih hg
  | commit b h ih => exact WF_commit ih
  | grow b h n ih => exact WF_grow ih n
  | rollback b s h hs1 hs2 hs3 hs4 ih => exact WF_rollback ih hs2 hs3 hs4

/-- C3 (amended): in every state reachable from a validly constructed
buffer when advance/consume happens only with an element buffered and
unread stays within the committed region (the usage the source
documentation prescribes), buffered() equals the write position's
absolute index minus the read position's, it is never negative, and the
write position never precedes the read position.  (The unguarded code
lets consume move past the write position, making buffered negative, as
the counterexample shows.) -/
theorem C3_buffered_nonneg {T : Type} [Inhabited T] (b : Buffer T) (h : Reach b) :
    b.buffered = b.write.AbsolutePos - b.read.AbsolutePos ∧
    0 ≤ b.buffered ∧
    b.read.AbsolutePos ≤ b.write.AbsolutePos := by
  have hw := Reach_WF h
  have hrw := WF_read_le_write hw
  refine ⟨rfl, ?_, hrw⟩
  unfold Buffer.buffered
  omega

/-- Witness for C3 on a concrete reachable buffer (write then read). -/
theorem C3_buffered_nonneg_witness :
    0 ≤ ((b5x.Write 3).Read).2.2.buffered ∧
    ((b5x.Write 3).Read).2.2.read.AbsolutePos ≤ ((b5x.Write 3).Read).2.2.write.AbsolutePos :=
  ⟨(C3_buffered_nonneg _ (Reach.read _ (Reach.write _ 3
      (Reach.new 5 1 b5x (by decide) (by decide))))).2.1,
   (C3_buffered_nonneg _ (Reach.read _ (Reach.write _ 3
      (Reach.new 5 1 b5x (by decide) (by decide))))).2.2⟩

theorem layout_WF {T : Type} {b : Buffer T} {past q : List T} (h : b.Layout past q) : b.WF :=
  h.1

theorem layout_eq {T : Type} {b : Buffer T} {past q : List T} (h : b.Layout past q) :
    b.write.AbsolutePos = b.read.AbsolutePos + q.length := h.2.1

theorem layout_seg {T : Type} {b : Buffer T} {past q : List T} (h : b.Layout past q) :
    b.hasSegAt (b.read.AbsolutePos - past.length) (past ++ q) := h.2.2

theorem advance_logicalGet {T : Type} (b : Buffer T) (p : position) (i : Int) :
    ({ b with read := p } : Buffer T).logicalGet i = b.logicalGet i := rfl

theorem layout_get_read {T : Type} {b : Buffer T} {past : List T} {x : T} {q : List T}
    (h : b.Layout past (x :: q)) :
    b.logicalGet b.read.AbsolutePos = some x := by
  have hseg := layout_seg h
  have hk : past.length < (past ++ x :: q).length := by simp
  have := hseg past.length hk
  rw [List.getElem?_append_right (le_refl past.length)] at this
  simp only [Nat.sub_self] at this
  have harith : b.read.AbsolutePos - (past.length : Int) + (past.length : Int)
      = b.read.AbsolutePos := by omega
  rw [harith] at this
  simpa using this

theorem layout_read_nil {T : Type} [Inhabited T] {b : Buffer T} {past : List T}
    (h : b.Layout past []) : b.Read = (default, false, b) := by
  refine read_of_nonpos ?_
  have := layout_eq h
  unfold Buffer.buffered
  simp only [List.length_nil] at this
  omega

theorem layout_next_cons {T : Type} [Inhabited T] {b : Buffer T} {past : List T} {x : T}
    {q : List T} (h : b.Layout past (x :: q)) : b.Next = (x, true) := by
  have hWF := layout_WF h
  have heq := layout_eq h
  have hget := layout_get_read h
  have hbpos : ¬ b.Buffered ≤ 0 := by
    unfold Buffer.Buffered
    simp only [List.length_cons] at heq
    push_cast at heq
    omega
  unfold Buffer.Next
  rw [if_neg hbpos, WF_read_get_eq hWF, hget]
  rfl

theorem layout_next_nil {T : Type} [Inhabited T] {b : Buffer T} {past : List T}
    (h : b.Layout past []) : b.Next = (default, false) := by
  have := layout_eq h
  have hble : b.Buffered ≤ 0 := by
    unfold Buffer.Buffered
    simp only [List.length_nil] at this
    omega
  unfold Buffer.Next
  rw [if_pos hble]

theorem layout_read_cons {T : Type} [Inhabited T] {b : Buffer T} {past : List T} {x : T}
    {q : List T} (h : b.Layout past (x :: q)) :
    (b.Read).1 = x ∧ (b.Read).2.1 = true ∧
    ((b.Read).2.2).Layout (past ++ [x]) q ∧
    (b.Read).2.2.startRow = b.startRow ∧
    (b.Read).2.2.write = b.write ∧
    (b.Read).2.2.read.AbsolutePos = b.read.AbsolutePos + 1 := by
  have hWF := layout_WF h
  have heq := layout_eq h
  have hget := layout_get_read h
  have hseg := layout_seg h
  have heq' : b.write.AbsolutePos = b.read.AbsolutePos + (q.length + 1) := by
    simpa [Nat.cast_add] using heq
  have hbpos : 0 < b.buffered := by
    unfold Buffer.buffered
    omega
  have hrd := read_of_pos hbpos
  have habs : (b.read.Move 1).AbsolutePos = b.read.AbsolutePos + 1 :=
    move_one_abs (WF_read_rowSize_pos hWF) (WF_read_canon hWF)
  rw [hrd]
  refine ⟨?_, rfl, ?_, rfl, rfl, habs⟩
  · show (get2 b.buffers (b.read.Row - b.startRow) b.read.Col).getD default = x
    rw [WF_read_get_eq hWF, hget]
    rfl
  · refine ⟨WF_advance hWF (by omega), ?_, ?_⟩
    · show b.write.AbsolutePos = (b.read.Move 1).AbsolutePos + (q.length : Int)
      rw [habs]
      omega
    · show Buffer.hasSegAt _ ((b.read.Move 1).AbsolutePos - ((past ++ [x]).length : Int))
        ((past ++ [x]) ++ q)
      intro k hk
      rw [advance_logicalGet, habs]
      have harith : b.read.AbsolutePos + 1 - ((past ++ [x]).length : Int) + (k : Int)
          = b.read.AbsolutePos - (past.length : Int) + (k : Int) := by
        simp only [List.length_append, List.length_cons, List.length_nil]
        push_cast
        omega
      rw [harith]
      have hlist : (past ++ [x]) ++ q = past ++ (x :: q) := by simp
      rw [hlist]
      refine hseg k ?_
      simpa using hk

theorem layout_write {T : Type} [Inhabited T] {b : Buffer T} {past q : List T} (e : T)
    (h : b.Layout past q) :
    ((b.Write e).Layout past (q ++ [e])) ∧
    (b.Write e).startRow = b.startRow ∧
    (b.Write e).read = b.read ∧
    (b.Write e).write.AbsolutePos = b.write.AbsolutePos + 1 := by
  have hWF := layout_WF h
  have heq := layout_eq h
  have hseg := layout_seg h
  have habs := write_write_abs hWF e
  refine ⟨⟨WF_write hWF e, ?_, ?_⟩, write_startRow b e, write_read b e, habs⟩
  · rw [habs, write_read]
    simp only [List.length_append, List.length_cons, List.length_nil]
    push_cast
    omega
  · rw [write_read]
    intro k hk
    simp only [List.length_append, List.length_cons, List.length_nil] at hk
    by_cases hklt : k < (past ++ q).length
    · have hs := hseg k hklt
      have hsome : ∃ y, (past ++ q)[k]? = some y := by
        exact ⟨(past ++ q).get ⟨k, hklt⟩, by
          rw [List.getElem?_eq_getElem hklt]
          rfl⟩
      obtain ⟨y, hy⟩ := hsome
      rw [hy] at hs
      have hne : b.read.AbsolutePos - (past.length : Int) + (k : Int)
          ≠ b.write.AbsolutePos := by
        simp only [List.length_append] at hklt
        omega
      have hlg := logicalGet_write_ne hWF e hs hne
      rw [hlg]
      have hlist : past ++ (q ++ [e]) = (past ++ q) ++ [e] := by simp
      rw [hlist, List.getElem?_append_left hklt, hy]
    · have hkeq : k = (past ++ q).length := by
        simp only [List.length_append] at hklt ⊢
        omega
      have hieq : b.read.AbsolutePos - (past.length : Int) + (k : Int)
          = b.write.AbsolutePos := by
        rw [hkeq]
        simp only [List.length_append]
        push_cast
        omega
      rw [hieq, logicalGet_write_self hWF e]
      have hlist : past ++ (q ++ [e]) = (past ++ q) ++ [e] := by simp
      rw [hlist, hkeq, List.getElem?_concat_length]

theorem read_rowSize_pres {T : Type} [Inhabited T] (b : Buffer T) :
    (b.Read).2.2.rowSize = b.rowSize := by
  unfold Buffer.Read
  split_ifs <;> rfl

theorem runOps_layout {T : Type} [Inhabited T] (ops : List (BufOp T)) :
    ∀ (b : Buffer T) (past q : List T), b.Layout past q → okSched q ops →
      ((runOps b ops).1.Layout (past ++ (runOps b ops).2.map Prod.fst) (queueAfter q ops)) ∧
      ((runOps b ops).2.map Prod.fst ++ queueAfter q ops = q ++ writesOf ops) ∧
      (∀ p ∈ (runOps b ops).2, p.2 = true) ∧
      (runOps b ops).1.startRow = b.startRow ∧
      (runOps b ops).1.write.AbsolutePos = b.write.AbsolutePos + ((writesOf ops).length : Int) ∧
      (runOps b ops).1.read.AbsolutePos
        = b.read.AbsolutePos + (((runOps b ops).2.length : Nat) : Int) ∧
      (runOps b ops).2.length = numReads ops ∧
      (runOps b ops).1.rowSize = b.rowSize := by
  induction ops with
  | nil =>
      intro b past q hL hok
      refine ⟨?_, ?_, ?_, ?_, ?_, ?_, ?_⟩
      · simpa [runOps, queueAfter] using hL
      · simp [runOps, queueAfter, writesOf]
      · simp [runOps]
      · rfl
      · simp [runOps, writesOf]
      · simp [runOps]
      · simp [runOps, numReads]
  | cons op t ih =>
      cases op with
      | write e =>
          intro b past q hL hok
          have hrun : runOps b (BufOp.write e :: t) = runOps (b.Write e) t := rfl
          have hok' : okSched (q ++ [e]) t := hok
          obtain ⟨hL', hsr, hrd, hwa⟩ := layout_write e hL
          obtain ⟨iL, ieq, itrue, isr, iwa, ira, ilen, irs⟩ := ih (b.Write e) past (q ++ [e]) hL' hok'
          have hqa : queueAfter q (BufOp.write e :: t) = queueAfter (q ++ [e]) t := rfl
          have hwOf : writesOf (BufOp.write e :: t) = e :: writesOf t := rfl
          rw [hrun, hqa, hwOf]
          refine ⟨iL, ?_, itrue, isr.trans hsr, ?_, ?_, ilen, irs.trans (write_rowSize b e)⟩
          · rw [ieq]
            simp
          · rw [iwa, hwa]
            simp only [List.length_cons]
            push_cast
            omega
          · rw [ira]
            have : (b.Write e).read.AbsolutePos = b.read.AbsolutePos := by rw [hrd]
            rw [this]
      | read =>
          intro b past q hL hok
          obtain ⟨hne, hok'⟩ := hok
          cases q with
          | nil => exact absurd rfl hne
          | cons x q' =>
              have hrun : runOps b (BufOp.read :: t)
                  = ((runOps (b.Read).2.2 t).1,
                     ((b.Read).1, (b.Read).2.1) :: (runOps (b.Read).2.2 t).2) := rfl
              obtain ⟨h1, h2, hL', hsr, hw, hra⟩ := layout_read_cons hL
              have hok2 : okSched q' t := hok'
              obtain ⟨iL, ieq, itrue, isr, iwa, ira, ilen, irs⟩ :=
                ih (b.Read).2.2 (past ++ [x]) q' hL' hok2
              have hqa : queueAfter (x :: q') (BufOp.read :: t) = queueAfter q' t := rfl
              have hwOf : writesOf (BufOp.read :: t) = writesOf t := rfl
              have hnr : numReads (BufOp.read :: t) = numReads t + 1 := rfl
              rw [hrun, hqa, hwOf, hnr]
              simp only [List.map_cons, List.length_cons]
              refine ⟨?_, ?_, ?_, isr.trans hsr, ?_, ?_, by omega,
                irs.trans (read_rowSize_pres b)⟩
              · rw [h1]
                have hlist : past ++ (x :: (runOps (b.Read).2.2 t).2.map Prod.fst)
                    = (past ++ [x]) ++ (runOps (b.Read).2.2 t).2.map Prod.fst := by simp
                rw [hlist]
                exact iL
              · rw [h1]
                simp only [List.cons_append]
                rw [ieq]
              · intro p hp
                rcases List.mem_cons.mp hp with hp | hp
                · rw [hp]
                  exact h2
                · exact itrue p hp
              · rw [iwa]
                have : (b.Read).2.2.write.AbsolutePos = b.write.AbsolutePos := by rw [hw]
                rw [this]
              · rw [ira, hra]
                push_cast
                omega

theorem layout_new {T : Type} [Inhabited T] {rowSize rows : Int} {b : Buffer T}
    (hrows : 0 ≤ rows) (h : NewWithSize T rowSize rows = some b) : b.Layout [] [] := by
  refine ⟨WF_new hrows h, ?_, ?_⟩
  · unfold NewWithSize at h
    by_cases hle : rowSize ≤ 0
    · rw [if_pos hle] at h
      exact Option.noConfusion h
    · rw [if_neg hle] at h
      obtain rfl := (Option.some.injEq _ _).mp h
      simp [grow_read, grow_write]
  · intro k hk
    simp at hk

/-- C1: Writes and consuming reads interleaved so that every read happens
with at least one element buffered, on a buffer from the validated
constructor: the reads return exactly the written elements in write
order, each with hasElement true, and when the read count equals the
write count one further read reports hasElement false. -/
theorem C1_fifo_order {T : Type} [Inhabited T] (rowSize rows : Int)
    (hr : 0 < rowSize) (hrows : 0 ≤ rows) (b : Buffer T)
    (hb : NewWithSize T rowSize rows = some b)
    (ops : List (BufOp T)) (hok : okSched [] ops)
    (hbal : numReads ops = (writesOf ops).length) :
    ((runOps b ops).2.map Prod.fst = writesOf ops) ∧
    (∀ p ∈ (runOps b ops).2, p.2 = true) ∧
    (((runOps b ops).1.Read).2.1 = false) := by
  have hL0 := layout_new hrows hb
  obtain ⟨fL, feq, ftrue, fsr, fwa, fra, flen, frs⟩ := runOps_layout ops b [] [] hL0 hok
  have hlen := congrArg List.length feq
  simp only [List.length_append, List.length_map, List.nil_append, flen, hbal] at hlen
  have hqa : queueAfter [] ops = [] := by
    have : (queueAfter [] ops).length = 0 := by omega
    exact List.length_eq_zero.mp this
  rw [hqa] at feq fL
  refine ⟨by simpa using feq, ftrue, ?_⟩
  rw [List.nil_append] at fL
  rw [layout_read_nil fL]

/-- Witness for C1: two writes and two reads interleaved on a concrete
buffer deliver the written elements in order, then report no element. -/
theorem C1_fifo_order_witness :
    ((runOps b2x [BufOp.write 5, BufOp.read, BufOp.write 6, BufOp.read]).2.map Prod.fst
      = writesOf [BufOp.write 5, BufOp.read, BufOp.write 6, BufOp.read]) ∧
    (∀ p ∈ (runOps b2x [BufOp.write 5, BufOp.read, BufOp.write 6, BufOp.read]).2,
      p.2 = true) ∧
    (((runOps b2x [BufOp.write 5, BufOp.read, BufOp.write 6, BufOp.read]).1.Read).2.1
      = false) :=
  C1_fifo_order 2 1 (by decide) (by decide) b2x (by decide)
    [BufOp.write 5, BufOp.read, BufOp.write 6, BufOp.read]
    (by simp [okSched]) (by decide)

theorem okSched_replicate {T : Type} (l : List T) :
    okSched l (List.replicate l.length BufOp.read) := by
  induction l with
  | nil => simp [okSched]
  | cons x t ih =>
      show okSched (x :: t) (List.replicate (t.length + 1) BufOp.read)
      rw [List.replicate_succ]
      exact ⟨List.cons_ne_nil x t, ih⟩

theorem writesOf_replicate_read {T : Type} (n : Nat) :
    writesOf (List.replicate n (BufOp.read : BufOp T)) = [] := by
  induction n with
  | zero => rfl
  | succ m ih => rw [List.replicate_succ]; exact ih

theorem numReads_replicate {T : Type} (n : Nat) :
    numReads (List.replicate n (BufOp.read : BufOp T)) = n := by
  induction n with
  | zero => rfl
  | succ m ih =>
      rw [List.replicate_succ]
      show numReads (List.replicate m (BufOp.read : BufOp T)) + 1 = m + 1
      rw [ih]

theorem readAll_layout {T : Type} [Inhabited T] (b : Buffer T) (l : List T)
    (h : b.Layout [] l) :
    (runOps b (List.replicate l.length BufOp.read)).2.map Prod.fst = l := by
  obtain ⟨fL, feq, ftrue, fsr, fwa, fra, flen, frs⟩ :=
    runOps_layout (List.replicate l.length BufOp.read) b [] l h (okSched_replicate l)
  rw [writesOf_replicate_read] at feq
  rw [numReads_replicate] at flen
  have hlen := congrArg List.length feq
  simp only [List.length_append, List.length_map, List.length_nil, flen] at hlen
  have hqa : queueAfter l (List.replicate l.length BufOp.read) = [] := by
    have : (queueAfter l (List.replicate l.length BufOp.read)).length = 0 := by omega
    exact List.length_eq_zero.mp this
  rw [hqa] at feq
  simpa using feq

theorem rollback_after_run {T : Type} [Inhabited T] {b : Buffer T} {q : List T}
    (hb : b.Layout [] q) (ops : List (BufOp T)) (hok : okSched q ops) :
    (runOps b ops).1.Rollback b.State
      = (none, { (runOps b ops).1 with read := b.read }) := by
  have hWFb := layout_WF hb
  obtain ⟨fL, feq, ftrue, fsr, fwa, fra, flen, frs⟩ := runOps_layout ops b [] q hb hok
  have hnl : ¬ (b.read.Row < (runOps b ops).1.startRow) := by
    rw [fsr]
    exact not_lt.mpr (WF_startRow_le_read hWFb)
  unfold Buffer.Rollback Buffer.State newState State.zero
  simp [hnl]

theorem rollback_run_layout {T : Type} [Inhabited T] {b : Buffer T} {q : List T}
    (hb : b.Layout [] q) (ops : List (BufOp T)) (hok : okSched q ops) :
    ({ (runOps b ops).1 with read := b.read } : Buffer T).Layout [] (q ++ writesOf ops) := by
  have hWFb := layout_WF hb
  have hbeq := layout_eq hb
  obtain ⟨fL, feq, ftrue, fsr, fwa, fra, flen, frs⟩ := runOps_layout ops b [] q hb hok
  have hWF1 := layout_WF fL
  have h1eq := layout_eq fL
  have h1seg := layout_seg fL
  refine ⟨?_, ?_, ?_⟩
  · unfold Buffer.WF
    dsimp only
    refine ⟨WF_rowSize_pos hWF1, ?_, WF_write_rowSize hWF1, WF_read_canon hWFb,
      WF_write_canon hWF1, WF_startRow_nonneg hWF1, ?_, ?_, WF_cov hWF1,
      WF_chunk_len hWF1⟩
    · rw [frs]
      exact WF_read_rowSize hWFb
    · rw [fsr]
      exact WF_startRow_le_read hWFb
    · rw [fwa]
      have h1 := WF_read_le_write hWFb
      have h2 : (0:Int) ≤ ((writesOf ops).length : Int) := Nat.cast_nonneg _
      simp only [List.length_nil] at hbeq
      omega
  · show (runOps b ops).1.write.AbsolutePos
      = b.read.AbsolutePos + ((q ++ writesOf ops).length : Int)
    rw [fwa]
    simp only [List.length_nil] at hbeq
    simp only [List.length_append]
    push_cast
    omega
  · intro k hk
    rw [advance_logicalGet]
    simp only [List.nil_append] at hk ⊢
    have hfl := congrArg List.length feq
    simp only [List.length_append, List.length_map] at hfl
    have hk2 : k < (((runOps b ops).2.map Prod.fst)
        ++ queueAfter q ops).length := by
      simp only [List.length_append, List.length_map]
      simp only [List.length_append] at hk
      omega
    have hs := h1seg k (by simpa using hk2)
    have hanchor : (runOps b ops).1.read.AbsolutePos
        - (([] ++ (runOps b ops).2.map Prod.fst).length : Int) + (k : Int)
        = b.read.AbsolutePos - (([] : List T).length : Int) + (k : Int) := by
      rw [fra]
      simp only [List.nil_append, List.length_map, List.length_nil]
      push_cast
      omega
    rw [hanchor] at hs
    simp only [List.length_nil] at hs ⊢
    rw [List.nil_append] at hs
    rw [feq] at hs
    simpa using hs

/-- C2 (amended): for every buffer state satisfying the representation
invariant (in particular every state reached by documented usage with the
read position at or above the committed base), capturing a checkpoint and
rolling back to it after arbitrarily interleaved consuming reads and
writes (no commit) succeeds, restores the exact read position, leaves all
elements from the checkpointed read position onwards — including all
elements written after the checkpoint — readable in their original order,
and the next peeked element equals the one peeked at capture time
whenever one was buffered then.  (On a state whose read row was unread
below the committed base, rollback instead fails, as the counterexample
shows.) -/
theorem C2_rollback_restores {T : Type} [Inhabited T] (b : Buffer T) (q : List T)
    (hb : b.Layout [] q) (ops : List (BufOp T)) (hok : okSched q ops) :
    (((runOps b ops).1.Rollback b.State).1 = none) ∧
    (((runOps b ops).1.Rollback b.State).2.read = b.read) ∧
    ((((runOps b ops).1.Rollback b.State).2).Layout [] (q ++ writesOf ops)) ∧
    ((runOps (((runOps b ops).1.Rollback b.State).2)
        (List.replicate (q ++ writesOf ops).length BufOp.read)).2.map Prod.fst
      = q ++ writesOf ops) ∧
    (∀ x q2, q = x :: q2 →
      (((runOps b ops).1.Rollback b.State).2).Next = b.Next) := by
  have hrb := rollback_after_run hb ops hok
  have hLay := rollback_run_layout hb ops hok
  rw [hrb]
  refine ⟨rfl, rfl, hLay, readAll_layout _ _ hLay, ?_⟩
  intro x q2 hq
  subst hq
  have hLay2 : ({ (runOps b ops).1 with read := b.read } : Buffer T).Layout []
      (x :: (q2 ++ writesOf ops)) := by
    have := hLay
    rw [List.cons_append] at this
    exact this
  exact (layout_next_cons hLay2).trans (layout_next_cons hb).symm

/-- Witness for C2: checkpoint a concrete empty buffer, write one
element, roll back; the rollback succeeds, the read position is restored
and the element written after the checkpoint is read back. -/
theorem C2_rollback_restores_witness :
    (((runOps b2x [BufOp.write 7]).1.Rollback b2x.State).1 = none) ∧
    (((runOps b2x [BufOp.write 7]).1.Rollback b2x.State).2.read = b2x.read) ∧
    ((runOps (((runOps b2x [BufOp.write 7]).1.Rollback b2x.State).2)
        (List.replicate (([] : List Nat) ++ writesOf [BufOp.write 7]).length
          BufOp.read)).2.map Prod.fst
      = ([] : List Nat) ++ writesOf [BufOp.write 7]) :=
  ⟨(C2_rollback_restores b2x [] (by decide) [BufOp.write 7] (by simp [okSched])).1,
   (C2_rollback_restores b2x [] (by decide) [BufOp.write 7] (by simp [okSched])).2.1,
   (C2_rollback_restores b2x [] (by decide) [BufOp.write 7] (by simp [okSched])).2.2.2.1⟩
